import Mathlib

/-!
Shallow embedding of the xdcc-tui search aggregator core.

The Go sources embedded here:
* `search` package (src/unnamed/part_000): `XdccFileInfo`, `ProviderAggregator`
  with `NewProviderAggregator`, `AddProvider` and `Search`, the size constants
  `KiloByte`/`MegaByte`/`GigaByte`, `MaxProviders`, `MaxResults`, and
  `parseFileSize`.
* `tui` package (src/unnamed/part_004 and part_003): `FormatSize`.

Modelling conventions:
* Go's `map[xdcc.IRCFile]XdccFileInfo` is an association list with distinct
  keys; the Go assignment `m[k] = v` is `mapInsert` (replace the binding if the
  key is present, otherwise add it).
* The provider goroutines of `Search` are serialized in the order in which the
  mutex admits their map writes; a `List ProviderOutcome` records, in that
  serialization order, what each provider delivered.  The timeout behaviour of
  `Search` is additionally modelled as a small-step transition system
  (`AggStep`) in which provider completions and the deadline interleave freely.
* Go's `sort.Slice(results, less)` with `less i j := Size i > Size j` promises
  exactly a permutation that is sorted by size descending; we realize it with
  insertion sort over the reflexive relation `fun a b => b.Size ≤ a.Size`,
  whose sorted permutations are the same set.
* `strconv.ParseFloat(s, 32)` followed by exact scaling is modelled over the
  rationals for the plain decimal numerals (optional sign, digits, optional
  fractional part) that the size strings use; exponent/hex/inf forms of Go's
  float grammar do not occur in size tokens and are not modelled.  Go's
  `int64(f)` conversion truncates toward zero, which is `truncToInt`.
* `fmt.Sprintf("%.2f", x)` is modelled as rendering the rational `x` rounded
  to two decimals with round-half-to-even, the rounding Go's verb performs.
-/

namespace Xdcc

/-- Modelled from the spec: the locator type `xdcc.IRCFile` lives in the `xdcc`
package, whose source file is not available; per the spec it is an immutable,
comparable value with network/server address, optional channel, bot nickname
and pack number, and two locators are equal iff all fields are equal (Go
struct equality), which is exactly the derived decidable equality. -/
structure IRCFile where
  network : String
  channel : String
  botNick : String
  packNum : Nat
  deriving DecidableEq

/-- Go struct `XdccFileInfo` (search package, lines 12-17). -/
structure XdccFileInfo where
  URL : IRCFile
  Name : String
  Size : Int
  Slot : Int
  deriving DecidableEq

/-- Go constant `KiloByte = 1024` (line 104). -/
def KiloByte : Int := 1024

/-- Go constant `MegaByte = KiloByte * 1024` (line 105). -/
def MegaByte : Int := KiloByte * 1024

/-- Go constant `GigaByte = MegaByte * 1024` (line 106). -/
def GigaByte : Int := MegaByte * 1024

/-- Go constant `MaxProviders = 100` (line 27). -/
def MaxProviders : Nat := 100

/-- Go constant `MaxResults = 1024` (line 39). -/
def MaxResults : Nat := 1024

/-- One Go map assignment `m[res.URL] = res`: replace the binding if the key
is already present, otherwise append a new binding. -/
def mapInsert (m : List (IRCFile × XdccFileInfo)) (k : IRCFile) (v : XdccFileInfo) :
    List (IRCFile × XdccFileInfo) :=
  match m with
  | [] => [(k, v)]
  | (k', v') :: rest => if k' = k then (k, v) :: rest else (k', v') :: mapInsert rest k v

/-- Go map lookup `m[k]`. -/
def mapFind (m : List (IRCFile × XdccFileInfo)) (k : IRCFile) : Option XdccFileInfo :=
  match m with
  | [] => none
  | (k', v') :: rest => if k' = k then some v' else mapFind rest k

/-- The keys of the map. -/
def mapKeys (m : List (IRCFile × XdccFileInfo)) : List IRCFile :=
  m.map Prod.fst

/-- The merge loop body of `Search` (lines 68-72) run over the writes `ws`
starting from map `m`: each record is written into the map keyed by its URL. -/
def mergeFrom (m : List (IRCFile × XdccFileInfo)) (ws : List XdccFileInfo) :
    List (IRCFile × XdccFileInfo) :=
  ws.foldl (fun m r => mapInsert m r.URL r) m

/-- The merge of all provider writes of one `Search` call, in the order the
mutex serialized them, into the initially empty `allResults` map (line 47). -/
def mergeWrites (ws : List XdccFileInfo) : List (IRCFile × XdccFileInfo) :=
  mergeFrom [] ws

/-- The collection loop of `Search` (lines 90-93): the map's values, appended
into the `results` slice. -/
def collectResults (m : List (IRCFile × XdccFileInfo)) : List XdccFileInfo :=
  m.map Prod.snd

/-- The sort relation of `Search` (lines 96-98): `sort.Slice` with
`less i j := Size i > Size j` yields a permutation in which every adjacent
pair satisfies `¬(Size (i+1) > Size i)`, i.e. sorted by this relation. -/
def sizeDesc (a b : XdccFileInfo) : Prop := b.Size ≤ a.Size

instance decSizeDesc : DecidableRel sizeDesc := fun a b => Int.decLe b.Size a.Size

instance totalSizeDesc : IsTotal XdccFileInfo sizeDesc :=
  ⟨fun a b => le_total b.Size a.Size⟩

instance transSizeDesc : IsTrans XdccFileInfo sizeDesc :=
  ⟨fun _ _ _ h1 h2 => le_trans h2 h1⟩

/-- The size-descending sort of `Search` (lines 96-98). -/
def sortBySizeDesc (l : List XdccFileInfo) : List XdccFileInfo :=
  List.insertionSort sizeDesc l

/-- The outcome of one provider's `Search` call: a result batch, or an error
(sent into `errChan` by the goroutine, line 64, and never read). -/
inductive ProviderOutcome where
  | ok (batch : List XdccFileInfo)
  | err (msg : String)
  deriving DecidableEq

/-- The map writes a provider goroutine performs (lines 62-72): its batch when
its search succeeded, nothing when it returned an error. -/
def okWrites : ProviderOutcome → List XdccFileInfo
  | .ok batch => batch
  | .err _ => []

/-- Whether an outcome is a successful one. -/
def isOkOutcome : ProviderOutcome → Bool
  | .ok _ => true
  | .err _ => false

/-- All merged writes of a serialized list of provider outcomes. -/
def concatOk (outcomes : List ProviderOutcome) : List XdccFileInfo :=
  (outcomes.map okWrites).flatten

/-- What one `ProviderAggregator.Search` call returns, together with the
control-flow fact whether the timeout machinery of lines 50-88 was entered
(`usedTimeout = false` exactly on the zero-provider early return of
lines 43-45). -/
structure SearchReturn where
  results : List XdccFileInfo
  error : Option String
  usedTimeout : Bool
  deriving DecidableEq

/-- `ProviderAggregator.Search` (lines 41-101), with the concurrent provider
goroutines serialized: `outcomes` lists, in mutex serialization order, the
outcome of each provider whose work the merge observed.  With zero providers
the call returns immediately (lines 43-45); otherwise the observed writes are
merged into the map, the values are collected and sorted by size descending,
and the aggregate error is always `nil` (line 100). -/
def aggregatorSearch (outcomes : List ProviderOutcome) : SearchReturn :=
  if outcomes.length = 0 then
    ⟨[], none, false⟩
  else
    ⟨sortBySizeDesc (collectResults (mergeWrites (concatOk outcomes))), none, true⟩

/-- The last record among the writes `ws` whose locator is `k` — the
specification-side description of which record survives the merge. -/
def lastMatch (k : IRCFile) (ws : List XdccFileInfo) : Option XdccFileInfo :=
  ws.foldl (fun acc r => if r.URL = k then some r else acc) none

/-- Go struct `ProviderAggregator` (lines 23-25); the providers themselves are
opaque values of a type parameter. -/
structure ProviderAggregator (P : Type) where
  providerList : List P

/-- Go `NewProviderAggregator` (lines 29-33). -/
def NewProviderAggregator {P : Type} (providers : List P) : ProviderAggregator P :=
  ⟨providers⟩

/-- Go `AddProvider` (lines 35-37): an unconditional append. -/
def AddProvider {P : Type} (registry : ProviderAggregator P) (provider : P) :
    ProviderAggregator P :=
  ⟨registry.providerList ++ [provider]⟩

/-! ### Size-string parsing (`parseFileSize`, lines 111-132) -/

/-- The Go/error outcome of `parseFileSize`: `(n, nil)` or `(-1, err)`. -/
inductive SizeResult where
  | ok (n : Int)
  | error (msg : String)
  deriving DecidableEq

/-- Whether a `SizeResult` is the error case. -/
def isErr : SizeResult → Bool
  | .ok _ => false
  | .error _ => true

/-- Whether every character is a decimal digit. -/
def isDigits (cs : List Char) : Bool := cs.all (fun c => c.isDigit)

/-- The value of a list of decimal digits. -/
def digitsVal (cs : List Char) : Nat :=
  cs.foldl (fun a c => a * 10 + (c.toNat - 48)) 0

/-- `strconv.ParseFloat` on an unsigned plain decimal numeral
(digits, optionally followed by a dot and further digits, at least one digit
in total), taken exactly: the value of the numeral `ip.fp` is the fraction
`(ip·10^k + fp) / 10^k` (with `k` fractional digits), kept as an explicit
numerator/denominator pair so that everything stays kernel-computable. -/
def parseDecimal (cs : List Char) : Option (Int × Nat) :=
  match cs.span (fun c => c ≠ '.') with
  | (ip, []) =>
    if isDigits ip ∧ ip ≠ [] then some ((digitsVal ip : Int), 1) else none
  | (ip, _ :: fp) =>
    if isDigits ip ∧ isDigits fp ∧ (ip ≠ [] ∨ fp ≠ []) then
      some (((digitsVal ip * 10 ^ fp.length + digitsVal fp : Nat) : Int), 10 ^ fp.length)
    else none

/-- `strconv.ParseFloat` on a plain decimal numeral with optional sign. -/
def parseSignedDecimal (cs : List Char) : Option (Int × Nat) :=
  match cs with
  | [] => parseDecimal []
  | c :: rest =>
    if c = '-' then (parseDecimal rest).map (fun p => (-p.1, p.2))
    else if c = '+' then parseDecimal rest
    else parseDecimal (c :: rest)

/-- The exact rational value of a parsed numeral. -/
def fracVal (p : Int × Nat) : ℚ := (p.1 : ℚ) / (p.2 : ℚ)

/-- Truncation toward zero of a rational, Go's `int64(f)` conversion. -/
def truncToInt (q : ℚ) : Int := if 0 ≤ q then ⌊q⌋ else -⌊-q⌋

/-- Go's `int64(size * unit)` for the parsed value `size = p.1 / p.2`: the
exact scaled value `(p.1 / p.2) · mult` truncated toward zero (theorem
`scaleTrunc_eq_truncToInt` below). -/
def scaleTrunc (p : Int × Nat) (mult : Int) : Int := (p.1 * mult).tdiv (p.2 : Int)

/-- `parseFileSize` (lines 111-132) on the character list of the input: empty
input is an error; otherwise the last character is split off, the rest is
parsed as a number, and a trailing `G`/`M`/`K` scales by the matching unit
(the scaled value truncated to an integer); any other trailing character is
an error. -/
def parseFileSizeChars (cs : List Char) : SizeResult :=
  match cs with
  | [] => .error "empty string"
  | c :: rest =>
    let lastChar := (c :: rest).getLast (List.cons_ne_nil c rest)
    let sizePart := (c :: rest).dropLast
    match parseSignedDecimal sizePart with
    | none => .error "invalid syntax"
    | some size =>
      if lastChar = 'G' then .ok (scaleTrunc size GigaByte)
      else if lastChar = 'M' then .ok (scaleTrunc size MegaByte)
      else if lastChar = 'K' then .ok (scaleTrunc size KiloByte)
      else .error "unable to parse"

/-- `parseFileSize` on a string. -/
def parseFileSize (s : String) : SizeResult :=
  parseFileSizeChars s.data

/-! ### Human-readable size formatting (`FormatSize`, tui package) -/

/-- The character for the decimal digit `n < 10`. -/
def digitChar (n : Nat) : Char := Char.ofNat (48 + n)

/-- Base-10 digit characters of `n`, most significant first (fuel-driven). -/
def natDigitsAux : Nat → Nat → List Char → List Char
  | 0, _, acc => acc
  | fuel + 1, n, acc =>
    if n < 10 then digitChar n :: acc
    else natDigitsAux fuel (n / 10) (digitChar (n % 10) :: acc)

/-- Base-10 digit characters of `n`, most significant first. -/
def natDigits (n : Nat) : List Char := natDigitsAux (n + 1) n []

/-- Round-half-to-even of a rational to an integer, the rounding performed by
Go's `%.2f` verb on the scaled value. -/
def roundHalfEven (x : ℚ) : Int :=
  let f := x.floor
  let r := x - (f : ℚ)
  if r < 1 / 2 then f
  else if 1 / 2 < r then f + 1
  else if f % 2 = 0 then f else f + 1

/-- The characters `fmt.Sprintf("%.2f", float64(size)/float64(unit))`
produces for `0 < unit ≤ size`: the whole part's digits, a dot, and two
decimal digits (the quotient rounded to centesimals, half to even). -/
def fmtTwoDecChars (size unit : Int) : List Char :=
  natDigits ((roundHalfEven ((size : ℚ) * 100 / (unit : ℚ))).toNat / 100) ++
    '.' :: [digitChar ((roundHalfEven ((size : ℚ) * 100 / (unit : ℚ))).toNat / 10 % 10),
      digitChar ((roundHalfEven ((size : ℚ) * 100 / (unit : ℚ))).toNat % 10)]

/-- `fmt.Sprintf("%.2f", float64(size)/float64(unit))` as a string. -/
def fmtTwoDec (size unit : Int) : String := ⟨fmtTwoDecChars size unit⟩

/-- `FormatSize` (tui package, src/unnamed/part_004 lines 11-27 and
src/unnamed/part_003 lines 406-419, identical bodies): `"--"` for a negative
size, otherwise a two-decimal number with unit `GB`, `MB` or `KB` chosen by
threshold, or the plain byte count with unit `B`. -/
def FormatSize (size : Int) : String :=
  if size < 0 then "--"
  else if GigaByte ≤ size then fmtTwoDec size GigaByte ++ "GB"
  else if MegaByte ≤ size then fmtTwoDec size MegaByte ++ "MB"
  else if KiloByte ≤ size then fmtTwoDec size KiloByte ++ "KB"
  else (⟨natDigits size.toNat⟩ : String) ++ "B"

/-! ### The timeout transition system of `Search` (lines 52-88) -/

/-- A state of one running `Search` call: the providers whose goroutines have
not yet delivered, those that already delivered (in serialization order, a
history variable), the shared `allResults` map, and — once the `select` of
lines 83-88 has fired — the collected, sorted return value together with the
returned error (line 100 always returns `nil`). -/
structure AggState where
  pending : List ProviderOutcome
  ran : List ProviderOutcome
  store : List (IRCFile × XdccFileInfo)
  collected : Option (List XdccFileInfo × Option String)

/-- The effect of one provider goroutine on the shared map: a successful
provider merges its batch under the mutex, a failed one only reports to
`errChan` and leaves the map unchanged (lines 62-72). -/
def applyOutcome (store : List (IRCFile × XdccFileInfo)) :
    ProviderOutcome → List (IRCFile × XdccFileInfo)
  | .ok batch => mergeFrom store batch
  | .err _ => store

/-- The initial state of a `Search` call over the given providers. -/
def initAggState (outcomes : List ProviderOutcome) : AggState :=
  ⟨outcomes, [], [], none⟩

/-- One step of a running `Search` call: either some still-pending provider
goroutine finishes and applies its writes (possible also after the deadline —
goroutines are never cancelled), or the `select` of lines 83-88 fires (on
`doneChan` or on the 10-second `timeoutChan`) and the caller collects, sorts
and returns what the map holds at that moment, with a `nil` error. -/
inductive AggStep : AggState → AggState → Prop
  | provider (s : AggState) (l₁ l₂ : List ProviderOutcome) (o : ProviderOutcome)
      (hp : s.pending = l₁ ++ o :: l₂) :
      AggStep s ⟨l₁ ++ l₂, s.ran ++ [o], applyOutcome s.store o, s.collected⟩
  | collect (s : AggState) (hc : s.collected = none) :
      AggStep s ⟨s.pending, s.ran, s.store,
        some (sortBySizeDesc (collectResults s.store), none)⟩

/-! ### Lemmas about the map operations -/

theorem mem_mapKeys_mapInsert {m : List (IRCFile × XdccFileInfo)} {k a : IRCFile}
    {v : XdccFileInfo} :
    a ∈ mapKeys (mapInsert m k v) ↔ a = k ∨ a ∈ mapKeys m := by
  induction m with
  | nil => simp [mapInsert, mapKeys]
  | cons p rest ih =>
    obtain ⟨k', v'⟩ := p
    by_cases hk : k' = k
    · subst hk
      simp [mapInsert, mapKeys]
    · simp only [mapInsert, if_neg hk, mapKeys, List.map_cons, List.mem_cons] at *
      rw [ih]
      tauto

theorem nodup_mapKeys_mapInsert {m : List (IRCFile × XdccFileInfo)} {k : IRCFile}
    {v : XdccFileInfo} (h : (mapKeys m).Nodup) : (mapKeys (mapInsert m k v)).Nodup := by
  induction m with
  | nil => simp [mapInsert, mapKeys]
  | cons p rest ih =>
    obtain ⟨k', v'⟩ := p
    simp only [mapKeys, List.map_cons, List.nodup_cons] at h
    by_cases hk : k' = k
    · subst hk
      simpa [mapInsert, mapKeys, List.nodup_cons] using h
    · simp only [mapInsert, if_neg hk, mapKeys, List.map_cons, List.nodup_cons]
      refine ⟨fun hmem => ?_, ih h.2⟩
      rcases mem_mapKeys_mapInsert.mp hmem with h1 | h1
      · exact hk h1
      · exact h.1 h1

theorem mapFind_mapInsert_self {m : List (IRCFile × XdccFileInfo)} {k : IRCFile}
    {v : XdccFileInfo} : mapFind (mapInsert m k v) k = some v := by
  induction m with
  | nil => simp [mapInsert, mapFind]
  | cons p rest ih =>
    obtain ⟨k', v'⟩ := p
    by_cases hk : k' = k
    · simp [mapInsert, if_pos hk, mapFind]
    · simp [mapInsert, if_neg hk, mapFind, hk, ih]

theorem mapFind_mapInsert_ne {m : List (IRCFile × XdccFileInfo)} {k a : IRCFile}
    {v : XdccFileInfo} (h : k ≠ a) : mapFind (mapInsert m k v) a = mapFind m a := by
  induction m with
  | nil => simp [mapInsert, mapFind, h]
  | cons p rest ih =>
    obtain ⟨k', v'⟩ := p
    by_cases hk : k' = k
    · subst hk
      simp [mapInsert, mapFind, h, ih]
    · simp only [mapInsert, if_neg hk, mapFind]
      by_cases ha : k' = a
      · simp [ha]
      · simp [ha, ih]

theorem mem_mapInsert {m : List (IRCFile × XdccFileInfo)} {k : IRCFile}
    {v : XdccFileInfo} {p : IRCFile × XdccFileInfo} (h : p ∈ mapInsert m k v) :
    p = (k, v) ∨ p ∈ m := by
  induction m with
  | nil => simpa [mapInsert] using h
  | cons q rest ih =>
    obtain ⟨k', v'⟩ := q
    by_cases hk : k' = k
    · subst hk
      rcases (by simpa [mapInsert] using h : p = (k', v) ∨ p ∈ rest) with h1 | h1
      · exact Or.inl h1
      · exact Or.inr (List.mem_cons_of_mem _ h1)
    · rcases (by simpa [mapInsert, if_neg hk] using h :
          p = (k', v') ∨ p ∈ mapInsert rest k v) with h1 | h1
      · exact Or.inr (by simp [h1])
      · rcases ih h1 with h2 | h2
        · exact Or.inl h2
        · exact Or.inr (List.mem_cons_of_mem _ h2)

theorem mapFind_eq_some_of_mem {m : List (IRCFile × XdccFileInfo)} {k : IRCFile}
    {v : XdccFileInfo} (hnd : (mapKeys m).Nodup) (h : (k, v) ∈ m) :
    mapFind m k = some v := by
  induction m with
  | nil => simp at h
  | cons p rest ih =>
    obtain ⟨k', v'⟩ := p
    simp only [mapKeys, List.map_cons, List.nodup_cons] at hnd
    rcases List.mem_cons.mp h with h1 | h1
    · obtain ⟨hk, hv⟩ := Prod.mk.injEq .. ▸ h1
      simp [mapFind, hk.symm, hv]
    · have hne : k' ≠ k := by
        intro he
        refine hnd.1 ?_
        rw [he]
        exact List.mem_map.mpr ⟨(k, v), h1, rfl⟩
      simp [mapFind, hne, ih hnd.2 h1]

/-! ### Lemmas about the merge of provider writes -/

theorem mergeFrom_nil (m : List (IRCFile × XdccFileInfo)) : mergeFrom m [] = m := rfl

theorem mergeFrom_cons (m : List (IRCFile × XdccFileInfo)) (w : XdccFileInfo)
    (ws : List XdccFileInfo) :
    mergeFrom m (w :: ws) = mergeFrom (mapInsert m w.URL w) ws := rfl

theorem mergeFrom_append (m : List (IRCFile × XdccFileInfo)) (ws₁ ws₂ : List XdccFileInfo) :
    mergeFrom m (ws₁ ++ ws₂) = mergeFrom (mergeFrom m ws₁) ws₂ :=
  List.foldl_append ..

theorem mem_mapKeys_mergeFrom (ws : List XdccFileInfo)
    (m : List (IRCFile × XdccFileInfo)) (a : IRCFile) :
    a ∈ mapKeys (mergeFrom m ws) ↔ a ∈ mapKeys m ∨ a ∈ ws.map XdccFileInfo.URL := by
  induction ws generalizing m with
  | nil => simp [mergeFrom]
  | cons w ws ih =>
    rw [mergeFrom_cons, ih]
    simp only [List.map_cons, List.mem_cons, mem_mapKeys_mapInsert]
    tauto

theorem nodup_mapKeys_mergeFrom {ws : List XdccFileInfo}
    {m : List (IRCFile × XdccFileInfo)} (h : (mapKeys m).Nodup) :
    (mapKeys (mergeFrom m ws)).Nodup := by
  induction ws generalizing m with
  | nil => exact h
  | cons w ws ih => exact mergeFrom_cons .. ▸ ih (nodup_mapKeys_mapInsert h)

theorem snd_url_of_mem_mergeFrom {ws : List XdccFileInfo}
    {m : List (IRCFile × XdccFileInfo)}
    (hm : ∀ p ∈ m, (Prod.snd p).URL = p.1) {p : IRCFile × XdccFileInfo}
    (h : p ∈ mergeFrom m ws) : (Prod.snd p).URL = p.1 := by
  induction ws generalizing m with
  | nil => exact hm p h
  | cons w ws ih =>
    rw [mergeFrom_cons] at h
    refine ih (fun q hq => ?_) h
    rcases mem_mapInsert hq with h1 | h1
    · simp [h1]
    · exact hm q h1

theorem mapFind_mergeFrom (ws : List XdccFileInfo) (m : List (IRCFile × XdccFileInfo))
    (a : IRCFile) :
    mapFind (mergeFrom m ws) a =
      ws.foldl (fun acc r => if r.URL = a then some r else acc) (mapFind m a) := by
  induction ws generalizing m with
  | nil => rfl
  | cons w ws ih =>
    rw [mergeFrom_cons, ih, List.foldl_cons]
    congr 1
    by_cases hw : w.URL = a
    · rw [if_pos hw, hw, mapFind_mapInsert_self]
    · rw [if_neg hw, mapFind_mapInsert_ne hw]

theorem mapFind_mergeWrites (ws : List XdccFileInfo) (a : IRCFile) :
    mapFind (mergeWrites ws) a = lastMatch a ws := by
  have h := mapFind_mergeFrom ws [] a
  simpa [mergeWrites, lastMatch, mapFind] using h

theorem concatOk_cons (o : ProviderOutcome) (rest : List ProviderOutcome) :
    concatOk (o :: rest) = okWrites o ++ concatOk rest := by
  simp [concatOk]

theorem concatOk_filter (outcomes : List ProviderOutcome) :
    concatOk (outcomes.filter isOkOutcome) = concatOk outcomes := by
  induction outcomes with
  | nil => rfl
  | cons o rest ih =>
    cases o with
    | ok batch => simp [List.filter_cons, isOkOutcome, concatOk_cons, ih]
    | err msg => simp [List.filter_cons, isOkOutcome, concatOk_cons, okWrites, ih]

theorem aggregatorSearch_results (outcomes : List ProviderOutcome) :
    (aggregatorSearch outcomes).results =
      sortBySizeDesc (collectResults (mergeWrites (concatOk outcomes))) := by
  by_cases h : outcomes.length = 0
  · have hnil : outcomes = [] := List.length_eq_zero.mp h
    subst hnil
    rfl
  · have h' : ¬ outcomes = [] := fun hn => h (by simp [hn])
    simp [aggregatorSearch, h, h']

theorem length_mergeWrites_eq_dedup (ws : List XdccFileInfo) :
    (mergeWrites ws).length = ((ws.map XdccFileInfo.URL).dedup).length := by
  have hnd : (mapKeys (mergeWrites ws)).Nodup :=
    nodup_mapKeys_mergeFrom (by simp [mapKeys])
  have hperm : (mapKeys (mergeWrites ws)).Perm ((ws.map XdccFileInfo.URL).dedup) := by
    refine (List.perm_ext_iff_of_nodup hnd (List.nodup_dedup _)).mpr (fun a => ?_)
    rw [List.mem_dedup]
    simpa [mapKeys, mergeWrites] using
      (mem_mapKeys_mergeFrom ws [] a)
  calc (mergeWrites ws).length = (mapKeys (mergeWrites ws)).length :=
        (List.length_map ..).symm
    _ = _ := hperm.length_eq

theorem length_mergeWrites_of_nodup {ws : List XdccFileInfo}
    (h : (ws.map XdccFileInfo.URL).Nodup) : (mergeWrites ws).length = ws.length := by
  rw [length_mergeWrites_eq_dedup, List.dedup_eq_self.mpr h, List.length_map]

/-! ### Demonstration inputs used by the witnesses -/

/-- A concrete locator. -/
def demoFile : IRCFile := ⟨"irc.example.net", "#chan", "bot", 1⟩

/-- A second, distinct locator. -/
def demoFile2 : IRCFile := ⟨"irc.example.net", "#chan", "bot", 2⟩

/-- A record for `demoFile`. -/
def demoRec : XdccFileInfo := ⟨demoFile, "pack-a.iso", 700, 1⟩

/-- A later record for the same locator `demoFile`, with different metadata. -/
def demoRecNewer : XdccFileInfo := ⟨demoFile, "pack-a-v2.iso", 900, 3⟩

/-- A record for `demoFile2`. -/
def demoRec2 : XdccFileInfo := ⟨demoFile2, "pack-b.iso", 100, 2⟩

/-- Two provider batches that collide on `demoFile`. -/
def demoDupOutcomes : List ProviderOutcome :=
  [.ok [demoRec], .ok [demoRecNewer, demoRec2]]

/-- A batch with `MaxResults + 1` records on pairwise distinct locators. -/
def bigBatch : List XdccFileInfo :=
  (List.range (MaxResults + 1)).map
    (fun i => ⟨⟨"irc.example.net", "#chan", "bot", i⟩, "pack.bin", 0, 0⟩)

/-- One provider delivering `bigBatch`. -/
def bigOutcomes : List ProviderOutcome := [.ok bigBatch]

theorem bigBatch_urls_nodup : (bigBatch.map XdccFileInfo.URL).Nodup := by
  rw [bigBatch, List.map_map]
  refine List.Nodup.map ?_ (List.nodup_range _)
  intro a b hab
  simpa [IRCFile.mk.injEq] using hab

theorem concatOk_bigOutcomes : concatOk bigOutcomes = bigBatch := by
  simp [bigOutcomes, concatOk, okWrites]

/-! ### Claim theorems for the aggregator -/

/-- C1: for every serialized set of provider result batches (possibly with
duplicate locators) merged by `ProviderAggregator.Search`, the returned output
has exactly one record per distinct locator (its locators are pairwise
distinct and are exactly the locators written), the total count equals the
number of distinct locators across all batches, and each surviving record is
the later (last) write the merge step observed for its locator. -/
theorem search_dedup (outcomes : List ProviderOutcome) :
    (((aggregatorSearch outcomes).results.map XdccFileInfo.URL).Nodup) ∧
    (∀ k : IRCFile,
      k ∈ (aggregatorSearch outcomes).results.map XdccFileInfo.URL ↔
        k ∈ (concatOk outcomes).map XdccFileInfo.URL) ∧
    ((aggregatorSearch outcomes).results.length =
      ((concatOk outcomes).map XdccFileInfo.URL).dedup.length) ∧
    (∀ r, r ∈ (aggregatorSearch outcomes).results →
      lastMatch r.URL (concatOk outcomes) = some r) := by
  have hres := aggregatorSearch_results outcomes
  have hperm : (aggregatorSearch outcomes).results.Perm
      (collectResults (mergeWrites (concatOk outcomes))) := by
    rw [hres]
    exact List.perm_insertionSort _ _
  have hurl : ∀ p ∈ mergeWrites (concatOk outcomes), (Prod.snd p).URL = p.1 :=
    fun p hp => snd_url_of_mem_mergeFrom (by simp) hp
  have hmapurl : (collectResults (mergeWrites (concatOk outcomes))).map XdccFileInfo.URL =
      mapKeys (mergeWrites (concatOk outcomes)) := by
    rw [collectResults, List.map_map, mapKeys]
    exact List.map_congr_left (fun p hp => hurl p hp)
  have hkeysnodup : (mapKeys (mergeWrites (concatOk outcomes))).Nodup :=
    nodup_mapKeys_mergeFrom (by simp [mapKeys])
  have hpermUrl : ((aggregatorSearch outcomes).results.map XdccFileInfo.URL).Perm
      (mapKeys (mergeWrites (concatOk outcomes))) :=
    hmapurl ▸ hperm.map XdccFileInfo.URL
  refine ⟨hpermUrl.nodup_iff.mpr hkeysnodup, fun k => ?_, ?_, ?_⟩
  · rw [hpermUrl.mem_iff]
    simpa [mapKeys, mergeWrites] using
      (mem_mapKeys_mergeFrom (concatOk outcomes) [] k)
  · rw [hperm.length_eq, collectResults, List.length_map,
      length_mergeWrites_eq_dedup]
  · intro r hr
    have hr' : r ∈ collectResults (mergeWrites (concatOk outcomes)) :=
      hperm.mem_iff.mp hr
    obtain ⟨⟨pk, pv⟩, hp, rfl⟩ := List.mem_map.mp hr'
    have hkey : pv.URL = pk := hurl _ hp
    rw [← mapFind_mergeWrites]
    show mapFind (mergeWrites (concatOk outcomes)) pv.URL = some pv
    rw [hkey]
    exact mapFind_eq_some_of_mem hkeysnodup hp

/-- Witness for C1 at a concrete collision: two providers both report
`demoFile`; the later observed write (`demoRecNewer`) survives. -/
theorem search_dedup_witness :
    lastMatch demoRecNewer.URL (concatOk demoDupOutcomes) = some demoRecNewer :=
  (search_dedup demoDupOutcomes).2.2.2 demoRecNewer (by decide)

/-- C2: in every result slice returned by `ProviderAggregator.Search`, every
adjacent pair of records has non-increasing `Size` (sorted by size
descending). -/
theorem search_sorted (outcomes : List ProviderOutcome) (i : Nat)
    (h : i + 1 < (aggregatorSearch outcomes).results.length) :
    ((aggregatorSearch outcomes).results.get ⟨i + 1, h⟩).Size ≤
      ((aggregatorSearch outcomes).results.get ⟨i, Nat.lt_of_succ_lt h⟩).Size := by
  have hs : List.Sorted sizeDesc (aggregatorSearch outcomes).results := by
    rw [aggregatorSearch_results]
    exact List.sorted_insertionSort sizeDesc _
  exact List.pairwise_iff_get.mp hs ⟨i, Nat.lt_of_succ_lt h⟩ ⟨i + 1, h⟩
    (by simp [Fin.lt_def])

/-- Witness for C2 on a concrete two-record output. -/
theorem search_sorted_witness :
    ((aggregatorSearch demoDupOutcomes).results.get ⟨1, by decide⟩).Size ≤
      ((aggregatorSearch demoDupOutcomes).results.get ⟨0, by decide⟩).Size :=
  search_sorted demoDupOutcomes 0 (by decide)

/-- C4: for every configuration of provider outcomes — including some or all
providers failing — `Search` returns a `nil` aggregate error, and the result
slice is the same usable slice the call would return with the failing
providers absent: one provider's error never fails the whole call and never
appears in the returned error. -/
theorem search_error_isolation (outcomes : List ProviderOutcome) :
    (aggregatorSearch outcomes).error = none ∧
    (aggregatorSearch outcomes).results =
      (aggregatorSearch (outcomes.filter isOkOutcome)).results := by
  constructor
  · unfold aggregatorSearch
    split <;> rfl
  · rw [aggregatorSearch_results, aggregatorSearch_results, concatOk_filter]

/-- C5: `Search` with zero registered providers returns the empty result set
and a `nil` error without entering the timeout machinery (`usedTimeout =
false` records that the early return of lines 43-45 was taken). -/
theorem search_no_providers : aggregatorSearch [] = ⟨[], none, false⟩ := rfl

theorem providerList_foldl_addProvider (ps qs : List Nat) :
    (qs.foldl AddProvider (NewProviderAggregator ps)).providerList = ps ++ qs := by
  induction qs generalizing ps with
  | nil => simp [NewProviderAggregator]
  | cons q qs ih =>
    rw [List.foldl_cons]
    have h := ih (ps ++ [q])
    simpa [AddProvider, NewProviderAggregator, List.append_assoc] using h

/-- Counterexample to C7: starting from an empty aggregator, `MaxProviders + 1`
`AddProvider` calls leave the provider list at length `MaxProviders + 1 >
MaxProviders` — no registration is rejected or ignored. -/
theorem add_provider_no_cap_cex :
    MaxProviders <
      (((List.range (MaxProviders + 1)).foldl AddProvider
          (NewProviderAggregator ([] : List Nat))).providerList).length := by
  rw [providerList_foldl_addProvider]
  simp [MaxProviders]

/-- C7 amended: no cap is enforced. `NewProviderAggregator` stores exactly its
arguments and `AddProvider` appends unconditionally, so after registering
`qs` on an aggregator constructed with `ps` the provider list is `ps ++ qs`,
whose length `ps.length + qs.length` is unbounded; `MaxProviders` is declared
but never used. -/
theorem add_provider_unbounded (ps qs : List Nat) :
    (qs.foldl AddProvider (NewProviderAggregator ps)).providerList = ps ++ qs :=
  providerList_foldl_addProvider ps qs

/-- C8: `MaxResults` caps only the pre-allocated capacity, never truncates:
the returned slice has exactly as many records as the merge map, every value
collected into the map appears in the returned slice, and when the map holds
more than `MaxResults` distinct locators the returned slice still exceeds
`MaxResults`. -/
theorem search_no_truncation (outcomes : List ProviderOutcome) :
    ((aggregatorSearch outcomes).results.length =
      (mergeWrites (concatOk outcomes)).length) ∧
    (∀ r, r ∈ collectResults (mergeWrites (concatOk outcomes)) →
      r ∈ (aggregatorSearch outcomes).results) ∧
    (MaxResults < (mergeWrites (concatOk outcomes)).length →
      MaxResults < (aggregatorSearch outcomes).results.length) := by
  have hperm : (aggregatorSearch outcomes).results.Perm
      (collectResults (mergeWrites (concatOk outcomes))) := by
    rw [aggregatorSearch_results]
    exact List.perm_insertionSort _ _
  have hlen : (aggregatorSearch outcomes).results.length =
      (mergeWrites (concatOk outcomes)).length := by
    rw [hperm.length_eq, collectResults, List.length_map]
  exact ⟨hlen, fun r hr => hperm.mem_iff.mpr hr, fun h => by rw [hlen]; exact h⟩

/-- Witness for C8: a collected record appears in the returned slice, and with
`MaxResults + 1` distinct locators the returned slice exceeds `MaxResults`. -/
theorem search_no_truncation_witness :
    demoRec2 ∈ (aggregatorSearch demoDupOutcomes).results ∧
    MaxResults < (aggregatorSearch bigOutcomes).results.length := by
  constructor
  · exact (search_no_truncation demoDupOutcomes).2.1 demoRec2 (by decide)
  · apply (search_no_truncation bigOutcomes).2.2
    rw [concatOk_bigOutcomes, length_mergeWrites_of_nodup bigBatch_urls_nodup]
    simp [bigBatch, MaxResults]

/-! ### Size parsing: C3 and C9 -/

theorem tdiv_natCast_eq_truncToInt (a : Int) (b : Nat) (hb : b ≠ 0) :
    a.tdiv (b : Int) = truncToInt ((a : ℚ) / (b : ℚ)) := by
  have hb0 : (0 : Int) ≤ (b : Int) := by positivity
  have hbq : (0 : ℚ) < (b : ℚ) := by exact_mod_cast Nat.pos_of_ne_zero hb
  rcases le_or_lt 0 a with ha | ha
  · have hq : (0 : ℚ) ≤ (a : ℚ) / (b : ℚ) := by positivity
    rw [truncToInt, if_pos hq, Rat.floor_intCast_div_natCast, Int.tdiv_eq_ediv ha hb0]
  · have hq : ¬ (0 : ℚ) ≤ (a : ℚ) / (b : ℚ) := by
      rw [not_le]
      exact div_neg_of_neg_of_pos (by exact_mod_cast ha) hbq
    rw [truncToInt, if_neg hq]
    have hrw : -((a : ℚ) / (b : ℚ)) = ((-a : Int) : ℚ) / (b : ℚ) := by
      push_cast
      ring
    rw [hrw, Rat.floor_intCast_div_natCast]
    have h2 : a.tdiv (b : Int) = -((-a).tdiv (b : Int)) := by
      rw [Int.neg_tdiv, neg_neg]
    rw [h2, Int.tdiv_eq_ediv (by omega) hb0]

theorem scaleTrunc_eq_truncToInt (p : Int × Nat) (mult : Int) (hd : p.2 ≠ 0) :
    scaleTrunc p mult = truncToInt (fracVal p * (mult : ℚ)) := by
  have h1 : fracVal p * (mult : ℚ) = ((p.1 * mult : Int) : ℚ) / (p.2 : ℚ) := by
    rw [fracVal]
    push_cast
    ring
  rw [scaleTrunc, h1, tdiv_natCast_eq_truncToInt _ _ hd]

theorem parseDecimal_den_pos {cs : List Char} {p : Int × Nat}
    (h : parseDecimal cs = some p) : 0 < p.2 := by
  unfold parseDecimal at h
  split at h
  · split_ifs at h
    cases h
    norm_num
  · split_ifs at h
    cases h
    positivity

theorem parseSignedDecimal_den_pos {cs : List Char} {p : Int × Nat}
    (h : parseSignedDecimal cs = some p) : 0 < p.2 := by
  unfold parseSignedDecimal at h
  split at h
  · exact parseDecimal_den_pos h
  · split_ifs at h
    · obtain ⟨p', hp', rfl⟩ := Option.map_eq_some'.mp h
      have hh := parseDecimal_den_pos hp'
      exact hh
    · exact parseDecimal_den_pos h
    · exact parseDecimal_den_pos h

theorem parseFileSize_unit (s : String) (p : Int × Nat) (u : Char) (mult : Int)
    (hu : (u = 'G' ∧ mult = GigaByte) ∨ (u = 'M' ∧ mult = MegaByte) ∨
      (u = 'K' ∧ mult = KiloByte))
    (hlast : s.data.getLast? = some u)
    (hp : parseSignedDecimal s.data.dropLast = some p) :
    parseFileSize s = SizeResult.ok (scaleTrunc p mult) := by
  unfold parseFileSize
  cases hs : s.data with
  | nil => rw [hs] at hlast; simp at hlast
  | cons c rest =>
    rw [hs] at hlast hp
    have hlast' : (c :: rest).getLast (List.cons_ne_nil c rest) = u := by
      rw [List.getLast?_eq_getLast _ (List.cons_ne_nil c rest)] at hlast
      exact Option.some_inj.mp hlast
    unfold parseFileSizeChars
    simp only [hp, hlast']
    rcases hu with ⟨rfl, rfl⟩ | ⟨rfl, rfl⟩ | ⟨rfl, rfl⟩
    · rw [if_pos rfl]
    · rw [if_neg (by decide), if_pos rfl]
    · rw [if_neg (by decide), if_neg (by decide), if_pos rfl]

/-- C3: `parseFileSize` maps `"1.5G"` to `1610612736`, `"500M"` to
`524288000` and `"10K"` to `10240`; it rejects `"100"` (no unit letter),
`""` and `"3X"`; and on every input whose numeric part parses (to the exact
value `p.1 / p.2`) and whose last character is a recognized unit letter, the
result is the scaled value truncated to an integer byte count. -/
theorem parse_file_size_spec :
    parseFileSize "1.5G" = SizeResult.ok 1610612736 ∧
    parseFileSize "500M" = SizeResult.ok 524288000 ∧
    parseFileSize "10K" = SizeResult.ok 10240 ∧
    isErr (parseFileSize "100") = true ∧
    isErr (parseFileSize "") = true ∧
    isErr (parseFileSize "3X") = true ∧
    (∀ (s : String) (p : Int × Nat) (u : Char) (mult : Int),
      ((u = 'G' ∧ mult = GigaByte) ∨ (u = 'M' ∧ mult = MegaByte) ∨
        (u = 'K' ∧ mult = KiloByte)) →
      s.data.getLast? = some u →
      parseSignedDecimal s.data.dropLast = some p →
      parseFileSize s = SizeResult.ok (scaleTrunc p mult) ∧
      scaleTrunc p mult = truncToInt (fracVal p * (mult : ℚ))) :=
  ⟨by decide, by decide, by decide, by decide, by decide, by decide,
    fun s p u mult hu hlast hp =>
      ⟨parseFileSize_unit s p u mult hu hlast hp,
        scaleTrunc_eq_truncToInt p mult
          (Nat.pos_iff_ne_zero.mp (parseSignedDecimal_den_pos hp))⟩⟩

/-- Witness for C3's universal clause at the fractional input `"2.5M"`,
whose scaled value `2.5 × 2^20` truncates to `2621440`. -/
theorem parse_file_size_spec_witness :
    (parseFileSize "2.5M" = SizeResult.ok (scaleTrunc (25, 10) MegaByte) ∧
      scaleTrunc (25, 10) MegaByte = truncToInt (fracVal (25, 10) * (MegaByte : ℚ))) ∧
    scaleTrunc (25, 10) MegaByte = 2621440 := by
  constructor
  · exact parse_file_size_spec.2.2.2.2.2.2 "2.5M" (25, 10) 'M' MegaByte
      (Or.inr (Or.inl ⟨rfl, rfl⟩)) (by decide) (by decide)
  · decide

theorem tdiv_nonpos_of_nonpos {a b : Int} (ha : a ≤ 0) (hb : 0 ≤ b) :
    a.tdiv b ≤ 0 := by
  have h1 : 0 ≤ (-a).tdiv b := Int.tdiv_nonneg (by omega) hb
  rw [Int.neg_tdiv] at h1
  exact neg_nonneg.mp h1

/-- Counterexample to C9 as stated: the numeric part of `"-0.0001K"` parses
to the negative number `-1/10000` and the final character is `K`, yet
`parseFileSize` returns the byte count `0`, which is not negative. -/
theorem parse_negative_not_rejected_cex :
    parseFileSize "-0.0001K" = SizeResult.ok 0 ∧
    parseSignedDecimal ("-0.0001K".data.dropLast) = some (-1, 10000) ∧
    fracVal (-1, 10000) < 0 ∧ ¬ ((0 : Int) < 0) :=
  ⟨by decide, by decide, by norm_num [fracVal], by decide⟩

/-- C9 amended: `parseFileSize` performs no sign validation.  For every input
whose numeric part parses to a negative number and whose final character is a
recognized unit letter, it returns the truncated scaled value together with a
nil error rather than rejecting the input; the returned byte count is
non-positive (negative for inputs like `"-5K"`, but `0` when the scaled value
lies in `(-1, 0)`). -/
theorem parse_file_size_negative (s : String) (p : Int × Nat) (u : Char) (mult : Int)
    (hu : (u = 'G' ∧ mult = GigaByte) ∨ (u = 'M' ∧ mult = MegaByte) ∨
      (u = 'K' ∧ mult = KiloByte))
    (hlast : s.data.getLast? = some u)
    (hp : parseSignedDecimal s.data.dropLast = some p)
    (hneg : fracVal p < 0) :
    parseFileSize s = SizeResult.ok (scaleTrunc p mult) ∧
    scaleTrunc p mult ≤ 0 := by
  refine ⟨parseFileSize_unit s p u mult hu hlast hp, ?_⟩
  have hd : 0 < p.2 := parseSignedDecimal_den_pos hp
  have hn : p.1 < 0 := by
    by_contra hcon
    rw [not_lt] at hcon
    have : (0 : ℚ) ≤ fracVal p :=
      div_nonneg (by exact_mod_cast hcon) (by positivity)
    linarith
  have hmult : (0 : Int) ≤ mult := by
    rcases hu with ⟨_, rfl⟩ | ⟨_, rfl⟩ | ⟨_, rfl⟩ <;> decide
  exact tdiv_nonpos_of_nonpos
    (mul_nonpos_iff.mpr (Or.inr ⟨hn.le, hmult⟩)) (by positivity)

/-- Witness for the amended C9 at `"-5K"`, whose byte count is `-5120`. -/
theorem parse_file_size_negative_witness :
    (parseFileSize "-5K" = SizeResult.ok (scaleTrunc (-5, 1) KiloByte) ∧
      scaleTrunc (-5, 1) KiloByte ≤ 0) ∧
    scaleTrunc (-5, 1) KiloByte = -5120 := by
  constructor
  · exact parse_file_size_negative "-5K" (-5, 1) 'K' KiloByte
      (Or.inr (Or.inr ⟨rfl, rfl⟩)) (by decide) (by decide) (by norm_num [fracVal])
  · decide

/-! ### Size formatting: C10 -/

theorem digitChar_isDigit {n : Nat} (h : n < 10) : (digitChar n).isDigit = true := by
  interval_cases n <;> decide

theorem natDigitsAux_digits (fuel : Nat) :
    ∀ (n : Nat) (acc : List Char), (∀ c ∈ acc, c.isDigit = true) →
      ∀ c ∈ natDigitsAux fuel n acc, c.isDigit = true := by
  induction fuel with
  | zero => intro n acc hacc c hc; exact hacc c hc
  | succ fuel ih =>
    intro n acc hacc c hc
    rw [natDigitsAux] at hc
    by_cases h : n < 10
    · rw [if_pos h] at hc
      rcases List.mem_cons.mp hc with rfl | hc'
      · exact digitChar_isDigit h
      · exact hacc c hc'
    · rw [if_neg h] at hc
      refine ih (n / 10) _ ?_ c hc
      intro d hd
      rcases List.mem_cons.mp hd with rfl | hd'
      · exact digitChar_isDigit (Nat.mod_lt _ (by norm_num))
      · exact hacc d hd'

theorem natDigits_digits (n : Nat) : ∀ c ∈ natDigits n, c.isDigit = true :=
  natDigitsAux_digits (n + 1) n [] (by simp)

theorem fmtTwoDecChars_digits (size unit : Int) :
    ∀ c ∈ fmtTwoDecChars size unit, c.isDigit = true ∨ c = '.' := by
  intro c hc
  rw [fmtTwoDecChars] at hc
  rcases List.mem_append.mp hc with h1 | h1
  · exact Or.inl (natDigits_digits _ c h1)
  · rcases List.mem_cons.mp h1 with rfl | h2
    · exact Or.inr rfl
    · rcases List.mem_cons.mp h2 with rfl | h3
      · exact Or.inl (digitChar_isDigit (Nat.mod_lt _ (by norm_num)))
      · rcases List.mem_cons.mp h3 with rfl | h4
        · exact Or.inl (digitChar_isDigit (Nat.mod_lt _ (by norm_num)))
        · simp at h4

/-- C10: `FormatSize` is total, returns the sentinel `"--"` for every
negative size, and for every non-negative size returns a numeric string
(digits and at most a decimal point) followed by exactly the unit suffix the
thresholds select: `GB` at `1024^3` and above, else `MB` at `1024^2`, else
`KB` at `1024`, else `B`. -/
theorem format_size_spec (size : Int) :
    (size < 0 → FormatSize size = "--") ∧
    (0 ≤ size →
      ∃ numChars : List Char,
        (∀ c ∈ numChars, c.isDigit = true ∨ c = '.') ∧
        FormatSize size = String.mk numChars ++
          (if 1073741824 ≤ size then "GB"
           else if 1048576 ≤ size then "MB"
           else if 1024 ≤ size then "KB"
           else "B")) := by
  have hG : GigaByte = (1073741824 : Int) := by decide
  have hM : MegaByte = (1048576 : Int) := by decide
  have hK : KiloByte = (1024 : Int) := by decide
  constructor
  · intro h
    unfold FormatSize
    rw [if_pos h]
  · intro h0
    have hng : ¬ size < 0 := not_lt.mpr h0
    by_cases h1 : (1073741824 : Int) ≤ size
    · refine ⟨fmtTwoDecChars size GigaByte, fmtTwoDecChars_digits _ _, ?_⟩
      unfold FormatSize
      rw [if_neg hng, if_pos (show GigaByte ≤ size by rw [hG]; exact h1), if_pos h1]
      rfl
    · by_cases h2 : (1048576 : Int) ≤ size
      · refine ⟨fmtTwoDecChars size MegaByte, fmtTwoDecChars_digits _ _, ?_⟩
        unfold FormatSize
        rw [if_neg hng, if_neg (show ¬ GigaByte ≤ size by rw [hG]; exact h1),
          if_pos (show MegaByte ≤ size by rw [hM]; exact h2), if_neg h1, if_pos h2]
        rfl
      · by_cases h3 : (1024 : Int) ≤ size
        · refine ⟨fmtTwoDecChars size KiloByte, fmtTwoDecChars_digits _ _, ?_⟩
          unfold FormatSize
          rw [if_neg hng, if_neg (show ¬ GigaByte ≤ size by rw [hG]; exact h1),
            if_neg (show ¬ MegaByte ≤ size by rw [hM]; exact h2),
            if_pos (show KiloByte ≤ size by rw [hK]; exact h3),
            if_neg h1, if_neg h2, if_pos h3]
          rfl
        · refine ⟨natDigits size.toNat,
            fun c hc => Or.inl (natDigits_digits _ c hc), ?_⟩
          unfold FormatSize
          rw [if_neg hng, if_neg (show ¬ GigaByte ≤ size by rw [hG]; exact h1),
            if_neg (show ¬ MegaByte ≤ size by rw [hM]; exact h2),
            if_neg (show ¬ KiloByte ≤ size by rw [hK]; exact h3),
            if_neg h1, if_neg h2, if_neg h3]

/-- Witness for C10 at `-1` (sentinel) and `2048` (KB branch). -/
theorem format_size_spec_witness :
    FormatSize (-1) = "--" ∧
    ∃ numChars : List Char,
      (∀ c ∈ numChars, c.isDigit = true ∨ c = '.') ∧
      FormatSize 2048 = String.mk numChars ++
        (if (1073741824 : Int) ≤ 2048 then "GB"
         else if (1048576 : Int) ≤ 2048 then "MB"
         else if (1024 : Int) ≤ 2048 then "KB"
         else "B") :=
  ⟨(format_size_spec (-1)).1 (by decide), (format_size_spec 2048).2 (by decide)⟩

/-! ### The timeout behaviour of `Search`: C6 -/

theorem concatOk_append (l₁ l₂ : List ProviderOutcome) :
    concatOk (l₁ ++ l₂) = concatOk l₁ ++ concatOk l₂ := by
  simp [concatOk]

theorem applyOutcome_mergeWrites (ws : List XdccFileInfo) (o : ProviderOutcome) :
    applyOutcome (mergeWrites ws) o = mergeWrites (ws ++ okWrites o) := by
  cases o with
  | ok batch => rw [applyOutcome, okWrites, mergeWrites, mergeWrites, mergeFrom_append]
  | err msg => simp [applyOutcome, okWrites]

/-- The inductive invariant of a running `Search` call: the providers that ran
and those still pending partition the registered providers; the shared map is
the merge of the writes of the providers that ran; and any collected return
value was sorted from a snapshot of the map at some prefix of the run, with a
`nil` error. -/
def AggInv (outcomes : List ProviderOutcome) (s : AggState) : Prop :=
  ((s.ran ++ s.pending).Perm outcomes) ∧
  s.store = mergeWrites (concatOk s.ran) ∧
  (∀ res e, s.collected = some (res, e) →
    e = none ∧
    ∃ ran₀ pend₀ : List ProviderOutcome,
      (ran₀ ++ pend₀).Perm outcomes ∧
      res = sortBySizeDesc (collectResults (mergeWrites (concatOk ran₀))))

theorem aggInv_init (outcomes : List ProviderOutcome) :
    AggInv outcomes (initAggState outcomes) := by
  refine ⟨by simp [initAggState], rfl, ?_⟩
  intro res e hc
  simp [initAggState] at hc

theorem aggInv_step {outcomes : List ProviderOutcome} {s s' : AggState}
    (h : AggInv outcomes s) (hs : AggStep s s') : AggInv outcomes s' := by
  cases hs with
  | provider l₁ l₂ o hp =>
    refine ⟨?_, ?_, ?_⟩
    · have hperm0 := h.1
      rw [hp] at hperm0
      refine List.Perm.trans ?_ hperm0
      show ((s.ran ++ [o]) ++ (l₁ ++ l₂)).Perm (s.ran ++ (l₁ ++ o :: l₂))
      rw [List.append_assoc]
      refine List.Perm.append_left s.ran ?_
      have hmid : (l₁ ++ o :: l₂).Perm (o :: (l₁ ++ l₂)) := List.perm_middle
      exact hmid.symm
    · show applyOutcome s.store o = mergeWrites (concatOk (s.ran ++ [o]))
      rw [h.2.1, concatOk_append, applyOutcome_mergeWrites]
      simp [concatOk]
    · intro res e hc
      exact h.2.2 res e hc
  | collect hc =>
    refine ⟨h.1, h.2.1, ?_⟩
    intro res e hcol
    obtain ⟨hres, he⟩ := Prod.mk.injEq .. ▸ Option.some_inj.mp hcol
    refine ⟨he.symm, s.ran, s.pending, h.1, ?_⟩
    rw [← hres, h.2.1]

theorem aggInv_reachable (outcomes : List ProviderOutcome) (s : AggState)
    (h : Relation.ReflTransGen AggStep (initAggState outcomes) s) :
    AggInv outcomes s := by
  induction h with
  | refl => exact aggInv_init outcomes
  | tail _ hstep ih => exact aggInv_step ih hstep

theorem collected_stable {s s' : AggState} (hstep : AggStep s s')
    {v : List XdccFileInfo × Option String} (hc : s.collected = some v) :
    s'.collected = some v := by
  cases hstep with
  | provider l₁ l₂ o hp => exact hc
  | collect hcnone => rw [hc] at hcnone; cases hcnone

/-- C6: in every run of `Search` — any interleaving of provider completions
with the deadline — whatever the caller collects when the `select` fires was
sorted from exactly the writes of the providers that had completed by then:
the still-pending providers contribute nothing, the collected return value
carries a `nil` error (the timeout yields partial results, not an error), and
once collected it is never changed by any later provider step (no write is
observable after the caller has returned). -/
theorem search_timeout_snapshot (outcomes : List ProviderOutcome) (s : AggState)
    (hreach : Relation.ReflTransGen AggStep (initAggState outcomes) s) :
    (∀ res e, s.collected = some (res, e) →
      e = none ∧
      ∃ ran₀ pend₀ : List ProviderOutcome,
        (ran₀ ++ pend₀).Perm outcomes ∧
        res = sortBySizeDesc (collectResults (mergeWrites (concatOk ran₀)))) ∧
    (∀ s' res e, AggStep s s' → s.collected = some (res, e) →
      s'.collected = some (res, e)) := by
  refine ⟨(aggInv_reachable outcomes s hreach).2.2, ?_⟩
  intro s' res e hstep hc
  exact collected_stable hstep hc

/-- The state in which the deadline fired before the single provider ran. -/
def demoCollectedState : AggState :=
  ⟨[ProviderOutcome.ok [demoRec]], [], [], some ([], none)⟩

/-- Witness for C6: with one provider and the deadline firing first, the
collected result is empty with a `nil` error. -/
theorem search_timeout_snapshot_witness :
    (none : Option String) = none ∧
    ∃ ran₀ pend₀ : List ProviderOutcome,
      (ran₀ ++ pend₀).Perm [ProviderOutcome.ok [demoRec]] ∧
      ([] : List XdccFileInfo) =
        sortBySizeDesc (collectResults (mergeWrites (concatOk ran₀))) := by
  have hstep : AggStep (initAggState [ProviderOutcome.ok [demoRec]])
      demoCollectedState :=
    AggStep.collect (initAggState [ProviderOutcome.ok [demoRec]]) rfl
  exact (search_timeout_snapshot [ProviderOutcome.ok [demoRec]] demoCollectedState
    (Relation.ReflTransGen.single hstep)).1 [] none rfl

end Xdcc
